import Mathlib

/-!
Shallow embedding of the handwriting-synthesis model (`model.py`) and its
training loss (`train.py`), together with proofs settling the frozen claims
about the repository.

Conventions of the embedding:
* tensors of real numbers become functions out of `Fin`-index types
  (`Vec n = Fin n → ℝ`); a batched tensor of shape `(B, n)` becomes
  `Fin B → Vec n`, and a time sequence of shape `(T, B, n)` becomes a
  `List (Fin B → Vec n)`;
* `torch` elementwise operations (`exp`, `tanh`, `sigmoid`, `softmax`)
  become the corresponding real functions applied pointwise;
* `view` / `cat` reshaping becomes the corresponding index bijection
  (product or sum index types);
* floating point is idealized as ℝ (the claims under scrutiny are about
  the mathematical formulas, not rounding).
-/

set_option maxHeartbeats 1000000
set_option autoImplicit false

namespace HandwritingSynthesis

noncomputable section

/-- Real vector of length `n`, the embedding of a 1-D tensor. -/
abbrev Vec (n : ℕ) := Fin n → ℝ

/-- Logistic sigmoid, the embedding of `torch.nn.Sigmoid`. -/
def sigmoid (x : ℝ) : ℝ := 1 / (1 + Real.exp (-x))

/-- Softmax over a `Fin n`-indexed vector, the embedding of
`torch.nn.Softmax` applied along the mixture axis. -/
def softmax {n : ℕ} (y : Fin n → ℝ) : Fin n → ℝ :=
  fun i => Real.exp (y i) / ∑ j, Real.exp (y j)

/-- Numerical-stability constant `epsillon = 1e-4` from `train.criterion`
(the source spells it `epsillon`). -/
def epsillon : ℝ := 1e-4

lemma epsillon_pos : 0 < epsillon := by norm_num [epsillon]

lemma sigmoid_pos (x : ℝ) : 0 < sigmoid x := by
  unfold sigmoid
  positivity

lemma sigmoid_lt_one (x : ℝ) : sigmoid x < 1 := by
  unfold sigmoid
  rw [div_lt_one (by positivity)]
  have := Real.exp_pos (-x)
  linarith

lemma abs_tanh_lt_one (x : ℝ) : |Real.tanh x| < 1 := by
  rw [Real.tanh_eq_sinh_div_cosh, abs_div, abs_of_pos (Real.cosh_pos x),
    div_lt_one (Real.cosh_pos x), abs_lt]
  constructor
  · have h := Real.sinh_lt_cosh (-x)
    rw [Real.sinh_neg, Real.cosh_neg] at h
    linarith
  · exact Real.sinh_lt_cosh x

lemma softmax_sum_one {n : ℕ} (hn : 0 < n) (y : Fin n → ℝ) :
    ∑ i, softmax y i = 1 := by
  have hpos : 0 < ∑ j, Real.exp (y j) := by
    apply Finset.sum_pos (fun j _ => Real.exp_pos (y j))
    exact ⟨⟨0, hn⟩, Finset.mem_univ _⟩
  unfold softmax
  rw [← Finset.sum_div, div_self (ne_of_gt hpos)]

lemma softmax_pos {n : ℕ} (y : Fin n → ℝ) (i : Fin n) : 0 < softmax y i := by
  unfold softmax
  by_cases hn : 0 < n
  · exact div_pos (Real.exp_pos _)
      (Finset.sum_pos (fun j _ => Real.exp_pos (y j)) ⟨⟨0, hn⟩, Finset.mem_univ _⟩)
  · exact absurd i.2 (by omega)

/-- Softmax over a single component is identically 1. -/
lemma softmax_fin_one (y : Fin 1 → ℝ) (i : Fin 1) : softmax y i = 1 := by
  unfold softmax
  rw [Fin.sum_univ_one, Subsingleton.elim i 0, div_self (ne_of_gt (Real.exp_pos _))]

/-! ## The mixture log-density (`train.mog_density_2d`)

Source (`train.py` lines 86–118): for each row the code standardizes
`x_c = (x - mu) / sigma`, forms
`z = sum_j x_c_j^2 - 2 rho x_c_0 x_c_1`, builds per-component values
`-z/(2 (1-rho^2)) - (log (2 pi) + log sigma_0 + log sigma_1
  + 0.5 log (1-rho^2)) + log_pi`, and reduces with `torch.logsumexp`
(which computes `log ∘ sum ∘ exp`). We embed a single row; the source's
leading `n` axis is the index type `ι` of `criterion` below. -/

/-- Per-component term inside the `logsumexp` of `mog_density_2d`. -/
def mogTerm {g : ℕ} (x : Vec 2) (log_pi : Fin g → ℝ) (mu : Fin g → Vec 2)
    (sigma : Fin g → Vec 2) (rho : Fin g → ℝ) (k : Fin g) : ℝ :=
  (-((∑ j, ((x j - mu k j) / sigma k j) ^ 2
        - 2 * rho k * ((x 0 - mu k 0) / sigma k 0) * ((x 1 - mu k 1) / sigma k 1))
      / (2 * (1 - rho k ^ 2))))
    - (Real.log (2 * Real.pi) + Real.log (sigma k 0) + Real.log (sigma k 1)
        + 0.5 * Real.log (1 - rho k ^ 2))
    + log_pi k

/-- Embedding of `train.mog_density_2d` for one row: a `logsumexp` over the
mixture components of `mogTerm`. -/
def mog_density_2d {g : ℕ} (x : Vec 2) (log_pi : Fin g → ℝ) (mu : Fin g → Vec 2)
    (sigma : Fin g → Vec 2) (rho : Fin g → ℝ) : ℝ :=
  Real.log (∑ k, Real.exp (mogTerm x log_pi mu sigma rho k))

/-! ## The sequence loss (`train.criterion`)

Source (`train.py` lines 121–157).  The code flattens `(n, b, *)` tensors to
`(n*b, *)`; we embed the flattened index as an arbitrary `Fintype` index `ι`
(for the composition with a forward pass, `ι = Fin T × Fin B`). -/

/-- Observed pen-lift likelihood `e * x0 + (1-e) * (1-x0)`
(`train.py` line 141). -/
def e_obs {ι : Type*} (x : ι → Vec 3) (e : ι → ℝ) (i : ι) : ℝ :=
  e i * x i 0 + (1 - e i) * (1 - x i 0)

/-- Epsilon-renormalized pen-lift likelihood `(e + eps) / (1 + 2*eps)`
(`train.py` line 142). -/
def e_eps {ι : Type*} (x : ι → Vec 3) (e : ι → ℝ) (i : ι) : ℝ :=
  (e_obs x e i + epsillon) / (1 + 2 * epsillon)

/-- Per-row mixture log-density as used by `criterion`: the 2-D offset part
of `x`, with `sigma + eps` and `rho / (1 + eps)` (`train.py` lines 144–152). -/
def stepLogDensity {ι : Type*} {g : ℕ} (x : ι → Vec 3) (log_pi : ι → Fin g → ℝ)
    (mu : ι → Fin g → Vec 2) (sigma : ι → Fin g → Vec 2) (rho : ι → Fin g → ℝ)
    (i : ι) : ℝ :=
  mog_density_2d (fun j => x i j.succ) (log_pi i) (mu i)
    (fun k j => sigma i k j + epsillon) (fun k => rho i k / (1 + epsillon))

/-- Embedding of `train.criterion` (lines 121–157): masked mean negative
log-likelihood `-(Σ_i (log_density_i + log e_i) * m_i) / (Σ_i m_i)`. -/
def criterion {ι : Type*} [Fintype ι] {g : ℕ} (x : ι → Vec 3) (e : ι → ℝ)
    (log_pi : ι → Fin g → ℝ) (mu : ι → Fin g → Vec 2) (sigma : ι → Fin g → Vec 2)
    (rho : ι → Fin g → ℝ) (masks : ι → ℝ) : ℝ :=
  -((∑ i, (stepLogDensity x log_pi mu sigma rho i + Real.log (e_eps x e i)) * masks i)
      / (∑ i, masks i))

/-! ## LSTM building blocks

Embedding of `torch.nn.LSTMCell` / single-layer `torch.nn.LSTM` as used by
both models. A cell maps an input (indexed by an arbitrary `Fintype` `ι`,
so that the skip-connection concatenations become sum-index types) and a
(hidden, cell) state to the next state, via the standard gate equations
`i = σ(W_ii x + b_ii + W_hi h + b_hi)` etc., `c' = f⊙c + i⊙g`,
`h' = o⊙tanh c'`. The gradient-clipping hooks of the source
(`register_hook` clamps on hidden states and projections) act only on
gradients and have no effect on the forward values embedded here. -/

/-- Parameters of one LSTM cell (input index type `ι`, hidden width `hid`),
split per gate in the order `i, f, g, o` of the torch weight layout. -/
structure LSTMCellP (ι : Type) (hid : ℕ) where
  w_ii : Fin hid → ι → ℝ
  w_if : Fin hid → ι → ℝ
  w_ig : Fin hid → ι → ℝ
  w_io : Fin hid → ι → ℝ
  w_hi : Fin hid → Fin hid → ℝ
  w_hf : Fin hid → Fin hid → ℝ
  w_hg : Fin hid → Fin hid → ℝ
  w_ho : Fin hid → Fin hid → ℝ
  b_ii : Vec hid
  b_if : Vec hid
  b_ig : Vec hid
  b_io : Vec hid
  b_hi : Vec hid
  b_hf : Vec hid
  b_hg : Vec hid
  b_ho : Vec hid

/-- Pre-activation of one LSTM gate: `W x + b + U h + bU`. -/
def gatePre {ι : Type} [Fintype ι] {hid : ℕ} (w : Fin hid → ι → ℝ) (b : Vec hid)
    (u : Fin hid → Fin hid → ℝ) (bu : Vec hid) (x : ι → ℝ) (h : Vec hid) : Vec hid :=
  fun j => (∑ k, w j k * x k) + b j + (∑ k, u j k * h k) + bu j

/-- One LSTM cell step on a single batch element. -/
def lstmCell {ι : Type} [Fintype ι] {hid : ℕ} (P : LSTMCellP ι hid) (x : ι → ℝ)
    (hc : Vec hid × Vec hid) : Vec hid × Vec hid :=
  let i := fun j => sigmoid (gatePre P.w_ii P.b_ii P.w_hi P.b_hi x hc.1 j)
  let f := fun j => sigmoid (gatePre P.w_if P.b_if P.w_hf P.b_hf x hc.1 j)
  let g := fun j => Real.tanh (gatePre P.w_ig P.b_ig P.w_hg P.b_hg x hc.1 j)
  let o := fun j => sigmoid (gatePre P.w_io P.b_io P.w_ho P.b_ho x hc.1 j)
  let c' := fun j => f j * hc.2 j + i j * g j
  (fun j => o j * Real.tanh (c' j), c')

/-- Batched LSTM state: a pair of `(B, hid)` hidden and cell tensors. -/
abbrev BState (B hid : ℕ) := (Fin B → Vec hid) × (Fin B → Vec hid)

/-- Zero-initialized LSTM state (torch's default when no state is passed). -/
def zeroBState {B hid : ℕ} : BState B hid := (fun _ _ => 0, fun _ _ => 0)

/-- One LSTM cell step on a whole batch (independent per batch element). -/
def lstmCellB {ι : Type} [Fintype ι] {B hid : ℕ} (P : LSTMCellP ι hid)
    (x : Fin B → ι → ℝ) (s : BState B hid) : BState B hid :=
  (fun b => (lstmCell P (x b) (s.1 b, s.2 b)).1,
   fun b => (lstmCell P (x b) (s.1 b, s.2 b)).2)

/-- Single-layer LSTM run over a time sequence (the embedding of a
`torch.nn.LSTM(_, _, 1)` call, and of the `for x in inp` loop over an
`LSTMCell`): returns per-step hidden outputs and the final state. -/
def lstmSeq {ι : Type} [Fintype ι] {B hid : ℕ} (P : LSTMCellP ι hid) :
    List (Fin B → ι → ℝ) → BState B hid → List (Fin B → Vec hid) × BState B hid
  | [], s => ([], s)
  | x :: xs, s =>
    let s' := lstmCellB P x s
    let rest := lstmSeq P xs s'
    (s'.1 :: rest.1, rest.2)

lemma lstmSeq_length {ι : Type} [Fintype ι] {B hid : ℕ} (P : LSTMCellP ι hid)
    (xs : List (Fin B → ι → ℝ)) (s : BState B hid) :
    (lstmSeq P xs s).1.length = xs.length := by
  induction xs generalizing s with
  | nil => rfl
  | cons x xs ih => simp [lstmSeq, ih]

/-- Per-layer input state: the source indexes `lstm_in_states[k]` when a state
list is supplied and lets torch zero-initialize otherwise; all call sites in
the source supply lists of matching length, so the `getD` default is never
reached there. -/
def optState {B hid : ℕ} (st : Option (List (BState B hid))) (k : ℕ) : BState B hid :=
  match st with
  | none => zeroBState
  | some l => l.getD k zeroBState

/-- Skip-connection concatenation `torch.cat((previous_layer_output, extra))`
along the feature axis, embedded as a sum-index function. -/
def sumCat {B mc : ℕ} {κ : Type} (prev : Fin B → Vec mc) (x : Fin B → κ → ℝ) :
    Fin B → (Fin mc ⊕ κ) → ℝ :=
  fun b => Sum.elim (prev b) (x b)

/-- Stacked skip-connection LSTM layers above the first one: each layer `k`
consumes `cat(previous layer output, extra input)`, starts from
`lstm_in_states[k]`, and adds `W_last[:, layer k block] @ h_k[t]` into the
running projection accumulator `acc` (the embedding of concatenating all
layers' outputs and applying the final `Linear`). Returns the accumulated
projections and the per-layer final states. -/
def runSkipLayers {B mc gdim : ℕ} {κ : Type} [Fintype κ]
    (w : Fin gdim → ℕ → Fin mc → ℝ) :
    List (LSTMCellP (Fin mc ⊕ κ) mc) → List (Fin B → κ → ℝ) →
      Option (List (BState B mc)) → List (Fin B → Vec mc) → ℕ →
      List (Fin B → Fin gdim → ℝ) →
      List (Fin B → Fin gdim → ℝ) × List (BState B mc)
  | [], _, _, _, _, acc => (acc, [])
  | cell :: rest, extra, st, prev, k, acc =>
    let xs := List.zipWith sumCat prev extra
    let out := lstmSeq cell xs (optState st k)
    let acc' := List.zipWith (fun a h => fun b o => a b o + ∑ u, w o k u * h b u) acc out.1
    let r := runSkipLayers w rest extra st out.1 (k + 1) acc'
    (r.1, out.2 :: r.2)

lemma runSkipLayers_length {B mc gdim : ℕ} {κ : Type} [Fintype κ]
    (w : Fin gdim → ℕ → Fin mc → ℝ) (cells : List (LSTMCellP (Fin mc ⊕ κ) mc))
    (extra : List (Fin B → κ → ℝ)) (st : Option (List (BState B mc)))
    (prev : List (Fin B → Vec mc)) (k : ℕ) (acc : List (Fin B → Fin gdim → ℝ))
    (hp : prev.length = extra.length) (ha : acc.length = extra.length) :
    (runSkipLayers w cells extra st prev k acc).1.length = extra.length := by
  induction cells generalizing prev k acc with
  | nil => simpa [runSkipLayers] using ha
  | cons cell rest ih =>
    simp only [runSkipLayers]
    apply ih
    · rw [lstmSeq_length, List.length_zipWith, hp, min_self]
    · rw [List.length_zipWith, lstmSeq_length, List.length_zipWith, hp, min_self,
        ha, min_self]

/-! ## The mixture output head

Source (`model.py` lines 70–77 and 277–283): a `Linear` projection `y` of
width `6*n_gaussians + 1` is split into `pi = softmax(y[0:g])`,
`mu = y[g:3g]` (viewed as `(g, 2)` row-major), `sigma = exp(y[3g:5g])`
(same view), `rho = tanh(y[5g:6g])`, `e = sigmoid(y[6g])`. -/

/-- Mixture-density parameters emitted at one time step for a batch. -/
structure MixtureOut (B g : ℕ) where
  e : Fin B → ℝ
  pi : Fin B → Fin g → ℝ
  mu : Fin B → Fin g → Vec 2
  sigma : Fin B → Fin g → Vec 2
  rho : Fin B → Fin g → ℝ

/-- Splitting of the final linear projection into the mixture parameters
(the shared tail of both models' `forward`). -/
def headOut {B g : ℕ} (y : Fin B → Vec (6 * g + 1)) : MixtureOut B g where
  e := fun b => sigmoid (y b ⟨6 * g, by omega⟩)
  pi := fun b => softmax (fun k => y b ⟨k, by have := k.isLt; omega⟩)
  mu := fun b k j => y b ⟨g + 2 * k + j, by have := k.isLt; have := j.isLt; omega⟩
  sigma := fun b k j =>
    Real.exp (y b ⟨3 * g + 2 * k + j, by have := k.isLt; have := j.isLt; omega⟩)
  rho := fun b k => Real.tanh (y b ⟨5 * g + k, by have := k.isLt; omega⟩)

/-! ## The unconditional model (`model.HandWritingRNN`) -/

/-- Parameters of `HandWritingRNN`: the first LSTM layer over the raw 3-dim
pen input, `num_layers - 1` further LSTM layers over
`cat(previous output, input)`, and the final `Linear` over the concatenation
of every layer's hidden output. The concatenated feature axis of
`last_layer` is indexed by (layer position, hidden unit); layer positions
beyond the actual depth are never read. -/
structure HandWritingRNNP (mc g : ℕ) where
  rnn0 : LSTMCellP (Fin 3) mc
  rnns : List (LSTMCellP (Fin mc ⊕ Fin 3) mc)
  w_last : Fin (6 * g + 1) → ℕ → Fin mc → ℝ
  b_last : Vec (6 * g + 1)

/-- Embedding of `HandWritingRNN.forward` (`model.py` lines 29–77): run the
skip-connection stack, project the concatenated hidden outputs through
`last_layer`, and split into mixture parameters. Returns the per-step
mixture outputs and the per-layer final LSTM states. -/
def uncondForward {mc g B : ℕ} (M : HandWritingRNNP mc g)
    (inp : List (Fin B → Vec 3)) (st : Option (List (BState B mc))) :
    List (MixtureOut B g) × List (BState B mc) :=
  let out0 := lstmSeq M.rnn0 inp (optState st 0)
  let acc0 := out0.1.map (fun h => fun b o => ∑ u, M.w_last o 0 u * h b u)
  let r := runSkipLayers M.w_last M.rnns inp st out0.1 1 acc0
  let ys := r.1.map (fun a => fun b o => a b o + M.b_last o)
  (ys.map headOut, out0.2 :: r.2)

lemma uncondForward_length {mc g B : ℕ} (M : HandWritingRNNP mc g)
    (inp : List (Fin B → Vec 3)) (st : Option (List (BState B mc))) :
    (uncondForward M inp st).1.length = inp.length := by
  unfold uncondForward
  rw [List.length_map, List.length_map,
    runSkipLayers_length _ _ _ _ _ _ _ (lstmSeq_length _ _ _)
      (by rw [List.length_map, lstmSeq_length])]

/-! ## The conditional model (`model.HandWritingSynthRNN`)

Source (`model.py` lines 148–285). Layer 0 is an `LSTMCell` over
`cat(pen input, previous context window)`; its hidden state drives the
soft attention window over the character sequence; layers 1..N-1 are LSTM
layers over `cat(previous output, pen input, window)`; the concatenated
hidden outputs feed the same mixture head. -/

/-- Parameters of `HandWritingSynthRNN` with `K = n_gaussians_window`
window components and `nc = n_char` characters (the unused constructor
arguments `max_stroke_len` / `max_sentence_len` carry no parameters). -/
structure HandWritingSynthRNNP (mc g nc K : ℕ) where
  first_rnn : LSTMCellP (Fin 3 ⊕ Fin nc) mc
  rnns : List (LSTMCellP (Fin mc ⊕ (Fin 3 ⊕ Fin nc)) mc)
  w_hw : Fin (3 * K) → Fin mc → ℝ
  b_hw : Vec (3 * K)
  w_last : Fin (6 * g + 1) → ℕ → Fin mc → ℝ
  b_last : Vec (6 * g + 1)

/-- Soft-window parameter block `self.h_to_w(h).exp()` (`model.py` line 228):
elementwise exponential of the linear projection of the first cell's hidden
state; positions `[0,K)`, `[K,2K)`, `[2K,3K)` are the `alpha`, `beta`,
`kappa`-increment chunks. -/
def windowParams {B mc g nc K : ℕ} (M : HandWritingSynthRNNP mc g nc K)
    (h : Fin B → Vec mc) : Fin B → Vec (3 * K) :=
  fun b i => Real.exp ((∑ u, M.w_hw i u * h b u) + M.b_hw i)

/-- Intermediate values of one step of the attention loop
(`model.py` lines 216–245), recorded for the statements about the
per-step invariants: `beta` is the source's value after the `beta = -beta`
negation of line 233, and `kappa` is the updated position of line 232. -/
structure AttnRec (B mc nc K U : ℕ) where
  h : Fin B → Vec mc
  c : Fin B → Vec mc
  alpha : Fin B → Fin K → ℝ
  beta : Fin B → Fin K → ℝ
  kappa : Fin B → Fin K → ℝ
  phi : Fin B → Fin U → ℝ
  window : Fin B → Vec nc

/-- One step of the conditional model's attention loop: advance the first
`LSTMCell` on `cat(x, prev_window)`, compute the window parameters, update
`kappa`, and form the window weights `phi` and the context `window` over
the padded character sequence `c_seq` (character positions are
`1..U` via `torch.arange(1, U + 1)`). -/
def attnStep {B mc g nc K U : ℕ} (M : HandWritingSynthRNNP mc g nc K)
    (cseq : Fin B → Fin U → Vec nc) (x : Fin B → Vec 3)
    (h c : Fin B → Vec mc) (w : Fin B → Vec nc) (pk : Fin B → Fin K → ℝ) :
    AttnRec B mc nc K U :=
  let rnn_inp : Fin B → (Fin 3 ⊕ Fin nc) → ℝ := fun b => Sum.elim (x b) (w b)
  let hc' := lstmCellB M.first_rnn rnn_inp (h, c)
  let wp := windowParams M hc'.1
  let alpha := fun b (k : Fin K) => wp b ⟨k, by have := k.isLt; omega⟩
  let kappa := fun b (k : Fin K) =>
    wp b ⟨2 * K + k, by have := k.isLt; omega⟩ + pk b k
  let beta := fun b (k : Fin K) => -(wp b ⟨K + k, by have := k.isLt; omega⟩)
  let phi := fun b (u : Fin U) =>
    ∑ k, Real.exp (beta b k * (kappa b k - ((u : ℝ) + 1)) ^ 2) * alpha b k
  let window := fun b ch => ∑ u, phi b u * cseq b u ch
  ⟨hc'.1, hc'.2, alpha, beta, kappa, phi, window⟩

/-- The whole attention loop `for x in inp` of the conditional forward pass,
threading `(h, c)`, the context window and `kappa`, and recording every
step's intermediates. -/
def attnSteps {B mc g nc K U : ℕ} (M : HandWritingSynthRNNP mc g nc K)
    (cseq : Fin B → Fin U → Vec nc) :
    List (Fin B → Vec 3) → (Fin B → Vec mc) → (Fin B → Vec mc) →
      (Fin B → Vec nc) → (Fin B → Fin K → ℝ) → List (AttnRec B mc nc K U)
  | [], _, _, _, _ => []
  | x :: xs, h, c, w, pk =>
    let r := attnStep M cseq x h c w pk
    r :: attnSteps M cseq xs r.h r.c r.window r.kappa

lemma attnSteps_length {B mc g nc K U : ℕ} (M : HandWritingSynthRNNP mc g nc K)
    (cseq : Fin B → Fin U → Vec nc) (xs : List (Fin B → Vec 3))
    (h c : Fin B → Vec mc) (w : Fin B → Vec nc) (pk : Fin B → Fin K → ℝ) :
    (attnSteps M cseq xs h c w pk).length = xs.length := by
  induction xs generalizing h c w pk with
  | nil => rfl
  | cons x xs ih => simp [attnSteps, ih]

/-- Result bundle of `HandWritingSynthRNN.forward`: the source returns
`(e, pi, mu, sigma, rho, lstm_out_states, prev_window, prev_kappa)`; the
`attn` field additionally exposes the per-step attention intermediates
(the source's `window_list` and the successive `prev_kappa` values). -/
structure CondOut (B g mc nc K U : ℕ) where
  steps : List (MixtureOut B g)
  states : List (BState B mc)
  window : Fin B → Vec nc
  kappa : Fin B → Fin K → ℝ
  attn : List (AttnRec B mc nc K U)

/-- Embedding of `HandWritingSynthRNN.forward` (`model.py` lines 189–285):
the attention loop over the first `LSTMCell`, then the remaining skip
LSTM layers over `cat(first layer output, inp, window)`, the final linear
projection of all layers' concatenated hidden outputs, and the mixture
head. `prev_window = None` defaults to zeros, and the default
`prev_kappa = 0` is the zero function at call sites. -/
def condForward {mc g nc K B U : ℕ} (M : HandWritingSynthRNNP mc g nc K)
    (inp : List (Fin B → Vec 3)) (cseq : Fin B → Fin U → Vec nc)
    (st : Option (List (BState B mc))) (pw : Option (Fin B → Vec nc))
    (pk : Fin B → Fin K → ℝ) : CondOut B g mc nc K U :=
  let w0 := pw.getD (fun _ _ => 0)
  let s0 := optState st 0
  let recs := attnSteps M cseq inp s0.1 s0.2 w0 pk
  let hs := recs.map (fun r => r.h)
  let windows := recs.map (fun r => r.window)
  let extra : List (Fin B → (Fin 3 ⊕ Fin nc) → ℝ) :=
    List.zipWith (fun x w => fun b => Sum.elim (x b) (w b)) inp windows
  let acc0 : List (Fin B → Fin (6 * g + 1) → ℝ) :=
    hs.map (fun h => fun b o => ∑ u, M.w_last o 0 u * h b u)
  let r := runSkipLayers M.w_last M.rnns extra st hs 1 acc0
  let ys := r.1.map (fun a => fun b o => a b o + M.b_last o)
  -- `getLastD` with the loop-entry values: when `inp` is empty the source's
  -- `h`, `c`, `prev_window`, `prev_kappa` variables still hold those values.
  let lastR : AttnRec B mc nc K U :=
    recs.getLastD ⟨s0.1, s0.2, fun _ _ => 0, fun _ _ => 0, pk, fun _ _ => 0, w0⟩
  { steps := ys.map headOut
    states := (lastR.h, lastR.c) :: r.2
    window := lastR.window
    kappa := lastR.kappa
    attn := recs }

lemma condForward_attn {mc g nc K B U : ℕ} (M : HandWritingSynthRNNP mc g nc K)
    (inp : List (Fin B → Vec 3)) (cseq : Fin B → Fin U → Vec nc)
    (st : Option (List (BState B mc))) (pw : Option (Fin B → Vec nc))
    (pk : Fin B → Fin K → ℝ) :
    (condForward M inp cseq st pw pk).attn
      = attnSteps M cseq inp (optState st 0).1 (optState st 0).2
          (pw.getD (fun _ _ => 0)) pk := rfl

lemma condForward_attn_length {mc g nc K B U : ℕ} (M : HandWritingSynthRNNP mc g nc K)
    (inp : List (Fin B → Vec 3)) (cseq : Fin B → Fin U → Vec nc)
    (st : Option (List (BState B mc))) (pw : Option (Fin B → Vec nc))
    (pk : Fin B → Fin K → ℝ) :
    (condForward M inp cseq st pw pk).attn.length = inp.length := by
  rw [condForward_attn, attnSteps_length]

lemma condForward_steps_length {mc g nc K B U : ℕ} (M : HandWritingSynthRNNP mc g nc K)
    (inp : List (Fin B → Vec 3)) (cseq : Fin B → Fin U → Vec nc)
    (st : Option (List (BState B mc))) (pw : Option (Fin B → Vec nc))
    (pk : Fin B → Fin K → ℝ) :
    (condForward M inp cseq st pw pk).steps.length = inp.length := by
  simp only [condForward]
  rw [List.length_map, List.length_map,
    runSkipLayers_length _ _ _ _ _ _ _
      (by rw [List.length_map, attnSteps_length, List.length_zipWith,
          List.length_map, attnSteps_length, min_self])
      (by rw [List.length_map, List.length_map, attnSteps_length,
          List.length_zipWith, List.length_map, attnSteps_length, min_self]),
    List.length_zipWith, List.length_map, attnSteps_length, min_self]

/-! ## Projection views of the forward passes

The per-step mixture outputs of both forwards are `headOut` applied to the
final linear projections; `uncondYs` / `condYs` name those projection lists
(definitionally equal to the ones built inside the forwards), which lets the
range statements below talk about arbitrary steps. -/

/-- Final linear projections of `HandWritingRNN.forward`, one per time step. -/
def uncondYs {mc g B : ℕ} (M : HandWritingRNNP mc g)
    (inp : List (Fin B → Vec 3)) (st : Option (List (BState B mc))) :
    List (Fin B → Vec (6 * g + 1)) :=
  let out0 := lstmSeq M.rnn0 inp (optState st 0)
  let acc0 := out0.1.map (fun h => fun b o => ∑ u, M.w_last o 0 u * h b u)
  let r := runSkipLayers M.w_last M.rnns inp st out0.1 1 acc0
  r.1.map (fun a => fun b o => a b o + M.b_last o)

lemma uncondForward_steps_eq {mc g B : ℕ} (M : HandWritingRNNP mc g)
    (inp : List (Fin B → Vec 3)) (st : Option (List (BState B mc))) :
    (uncondForward M inp st).1 = (uncondYs M inp st).map headOut := rfl

/-- Final linear projections of `HandWritingSynthRNN.forward`. -/
def condYs {mc g nc K B U : ℕ} (M : HandWritingSynthRNNP mc g nc K)
    (inp : List (Fin B → Vec 3)) (cseq : Fin B → Fin U → Vec nc)
    (st : Option (List (BState B mc))) (pw : Option (Fin B → Vec nc))
    (pk : Fin B → Fin K → ℝ) : List (Fin B → Vec (6 * g + 1)) :=
  let w0 := pw.getD (fun _ _ => 0)
  let s0 := optState st 0
  let recs := attnSteps M cseq inp s0.1 s0.2 w0 pk
  let hs := recs.map (fun r => r.h)
  let windows := recs.map (fun r => r.window)
  let extra : List (Fin B → (Fin 3 ⊕ Fin nc) → ℝ) :=
    List.zipWith (fun x w => fun b => Sum.elim (x b) (w b)) inp windows
  let acc0 : List (Fin B → Fin (6 * g + 1) → ℝ) :=
    hs.map (fun h => fun b o => ∑ u, M.w_last o 0 u * h b u)
  (runSkipLayers M.w_last M.rnns extra st hs 1 acc0).1.map
    (fun a => fun b o => a b o + M.b_last o)

lemma condForward_steps_eq {mc g nc K B U : ℕ} (M : HandWritingSynthRNNP mc g nc K)
    (inp : List (Fin B → Vec 3)) (cseq : Fin B → Fin U → Vec nc)
    (st : Option (List (BState B mc))) (pw : Option (Fin B → Vec nc))
    (pk : Fin B → Fin K → ℝ) :
    (condForward M inp cseq st pw pk).steps
      = (condYs M inp cseq st pw pk).map headOut := rfl

/-! ## Per-step field equations of the attention step -/

lemma attnStep_alpha_eq {B mc g nc K U : ℕ} (M : HandWritingSynthRNNP mc g nc K)
    (cseq : Fin B → Fin U → Vec nc) (x : Fin B → Vec 3) (h c : Fin B → Vec mc)
    (w : Fin B → Vec nc) (pk : Fin B → Fin K → ℝ) :
    (attnStep M cseq x h c w pk).alpha
      = fun b (k : Fin K) => windowParams M (attnStep M cseq x h c w pk).h b
          ⟨(k : ℕ), by have := k.isLt; omega⟩ := rfl

lemma attnStep_beta_eq {B mc g nc K U : ℕ} (M : HandWritingSynthRNNP mc g nc K)
    (cseq : Fin B → Fin U → Vec nc) (x : Fin B → Vec 3) (h c : Fin B → Vec mc)
    (w : Fin B → Vec nc) (pk : Fin B → Fin K → ℝ) :
    (attnStep M cseq x h c w pk).beta
      = fun b (k : Fin K) => -(windowParams M (attnStep M cseq x h c w pk).h b
          ⟨K + (k : ℕ), by have := k.isLt; omega⟩) := rfl

lemma attnStep_kappa_eq {B mc g nc K U : ℕ} (M : HandWritingSynthRNNP mc g nc K)
    (cseq : Fin B → Fin U → Vec nc) (x : Fin B → Vec 3) (h c : Fin B → Vec mc)
    (w : Fin B → Vec nc) (pk : Fin B → Fin K → ℝ) :
    (attnStep M cseq x h c w pk).kappa
      = fun b (k : Fin K) => windowParams M (attnStep M cseq x h c w pk).h b
          ⟨2 * K + (k : ℕ), by have := k.isLt; omega⟩ + pk b k := rfl

lemma attnStep_phi_eq {B mc g nc K U : ℕ} (M : HandWritingSynthRNNP mc g nc K)
    (cseq : Fin B → Fin U → Vec nc) (x : Fin B → Vec 3) (h c : Fin B → Vec mc)
    (w : Fin B → Vec nc) (pk : Fin B → Fin K → ℝ) :
    (attnStep M cseq x h c w pk).phi
      = fun b (u : Fin U) => ∑ k,
          Real.exp ((attnStep M cseq x h c w pk).beta b k
              * ((attnStep M cseq x h c w pk).kappa b k - ((u : ℝ) + 1)) ^ 2)
            * (attnStep M cseq x h c w pk).alpha b k := rfl

lemma attnStep_window_eq {B mc g nc K U : ℕ} (M : HandWritingSynthRNNP mc g nc K)
    (cseq : Fin B → Fin U → Vec nc) (x : Fin B → Vec 3) (h c : Fin B → Vec mc)
    (w : Fin B → Vec nc) (pk : Fin B → Fin K → ℝ) :
    (attnStep M cseq x h c w pk).window
      = fun b ch => ∑ u, (attnStep M cseq x h c w pk).phi b u * cseq b u ch := rfl

/-- Key step fact for the monotonicity claim: the updated `kappa` dominates
the previous one, because the increment is an elementwise exponential. -/
lemma attnStep_kappa_ge {B mc g nc K U : ℕ} (M : HandWritingSynthRNNP mc g nc K)
    (cseq : Fin B → Fin U → Vec nc) (x : Fin B → Vec 3) (h c : Fin B → Vec mc)
    (w : Fin B → Vec nc) (pk : Fin B → Fin K → ℝ) (b : Fin B) (k : Fin K) :
    pk b k ≤ (attnStep M cseq x h c w pk).kappa b k := by
  simp only [attnStep_kappa_eq]
  have hpos : (0 : ℝ) < windowParams M (attnStep M cseq x h c w pk).h b
      ⟨2 * K + (k : ℕ), by have := k.isLt; omega⟩ := Real.exp_pos _
  linarith

/-- Every element of the attention trace is an `attnStep` application. -/
lemma attnSteps_get_shape {B mc g nc K U : ℕ} (M : HandWritingSynthRNNP mc g nc K)
    (cseq : Fin B → Fin U → Vec nc) :
    ∀ (xs : List (Fin B → Vec 3)) (h c : Fin B → Vec mc) (w : Fin B → Vec nc)
      (pk : Fin B → Fin K → ℝ) (t : ℕ)
      (ht : t < (attnSteps M cseq xs h c w pk).length),
      ∃ x h0 c0 w0 pk0, (attnSteps M cseq xs h c w pk).get ⟨t, ht⟩
        = attnStep M cseq x h0 c0 w0 pk0 := by
  intro xs
  induction xs with
  | nil => intro h c w pk t ht; simp [attnSteps] at ht
  | cons x xs ih =>
    intro h c w pk t ht
    match t with
    | 0 => exact ⟨x, h, c, w, pk, rfl⟩
    | t' + 1 =>
      have ht' : t' < (attnSteps M cseq xs (attnStep M cseq x h c w pk).h
          (attnStep M cseq x h c w pk).c (attnStep M cseq x h c w pk).window
          (attnStep M cseq x h c w pk).kappa).length := by
        simpa [attnSteps, attnSteps_length] using ht
      exact ih _ _ _ _ t' ht'

/-! ## Claim C3: monotonicity of the attention position `kappa` -/

/-- Chain version of the monotonicity invariant over the raw attention loop. -/
lemma attnSteps_kappa_chain {B mc g nc K U : ℕ} (M : HandWritingSynthRNNP mc g nc K)
    (cseq : Fin B → Fin U → Vec nc) :
    ∀ (xs : List (Fin B → Vec 3)) (h c : Fin B → Vec mc) (w : Fin B → Vec nc)
      (pk : Fin B → Fin K → ℝ) (t : ℕ)
      (ht : t + 1 < (pk :: (attnSteps M cseq xs h c w pk).map
        (fun r => r.kappa)).length) (b : Fin B) (k : Fin K),
      (pk :: (attnSteps M cseq xs h c w pk).map (fun r => r.kappa)).get
          ⟨t, Nat.lt_of_succ_lt ht⟩ b k
        ≤ (pk :: (attnSteps M cseq xs h c w pk).map (fun r => r.kappa)).get
          ⟨t + 1, ht⟩ b k := by
  intro xs
  induction xs with
  | nil => intro h c w pk t ht; simp [attnSteps] at ht
  | cons x xs ih =>
    intro h c w pk t ht b k
    match t with
    | 0 => exact attnStep_kappa_ge M cseq x h c w pk b k
    | t' + 1 =>
      have ht' : t' + 1 < ((attnStep M cseq x h c w pk).kappa ::
          (attnSteps M cseq xs (attnStep M cseq x h c w pk).h
            (attnStep M cseq x h c w pk).c (attnStep M cseq x h c w pk).window
            (attnStep M cseq x h c w pk).kappa).map (fun r => r.kappa)).length := by
        simpa [attnSteps, attnSteps_length] using ht
      exact ih _ _ _ _ t' ht' b k

/-- C3: along the conditional forward computation, the attention position
`kappa` is componentwise non-decreasing from each step to the next (the
trace starts at the incoming `prev_kappa`). -/
theorem cond_kappa_monotone {mc g nc K B U : ℕ} (M : HandWritingSynthRNNP mc g nc K)
    (inp : List (Fin B → Vec 3)) (cseq : Fin B → Fin U → Vec nc)
    (st : Option (List (BState B mc))) (pw : Option (Fin B → Vec nc))
    (pk : Fin B → Fin K → ℝ) (t : ℕ)
    (ht : t + 1 < (pk :: (condForward M inp cseq st pw pk).attn.map
      (fun r => r.kappa)).length) (b : Fin B) (k : Fin K) :
    (pk :: (condForward M inp cseq st pw pk).attn.map (fun r => r.kappa)).get
        ⟨t, Nat.lt_of_succ_lt ht⟩ b k
      ≤ (pk :: (condForward M inp cseq st pw pk).attn.map (fun r => r.kappa)).get
        ⟨t + 1, ht⟩ b k :=
  attnSteps_kappa_chain M cseq inp (optState st 0).1 (optState st 0).2
    (pw.getD (fun _ _ => 0)) pk t ht b k

/-! ## Concrete zero-parameter models used by the witnesses -/

/-- LSTM cell with all weights and biases zero. -/
def zeroLSTMCellP (ι : Type) (hid : ℕ) : LSTMCellP ι hid :=
  ⟨fun _ _ => 0, fun _ _ => 0, fun _ _ => 0, fun _ _ => 0,
   fun _ _ => 0, fun _ _ => 0, fun _ _ => 0, fun _ _ => 0,
   fun _ => 0, fun _ => 0, fun _ => 0, fun _ => 0,
   fun _ => 0, fun _ => 0, fun _ => 0, fun _ => 0⟩

/-- Tiny unconditional model (1 memory cell, 1 mixture component, depth 1). -/
def zeroRNNP : HandWritingRNNP 1 1 :=
  ⟨zeroLSTMCellP _ _, [], fun _ _ _ => 0, fun _ => 0⟩

/-- Tiny conditional model (all dimensions 1, zero weights). -/
def zeroSynthP : HandWritingSynthRNNP 1 1 1 1 :=
  ⟨zeroLSTMCellP _ _, [], fun _ _ => 0, fun _ => 0, fun _ _ _ => 0, fun _ => 0⟩

/-- Concrete one-step zero input sequence used by several witnesses. -/
def wInp : List (Fin 1 → Vec 3) := [fun _ _ => 0]

/-- Concrete zero character sequence (batch 1, one character) for witnesses. -/
def wCseq : Fin 1 → Fin 1 → Vec 1 := fun _ _ _ => 0

/-- Concrete zero initial attention position for witnesses. -/
def wPk : Fin 1 → Fin 1 → ℝ := fun _ _ => 0

/-- Witness for C3: a concrete one-step run of the conditional forward pass,
with the step-bound hypothesis discharged by computation. -/
theorem cond_kappa_monotone_witness :
    (0 + 1 < (wPk ::
        (condForward zeroSynthP wInp wCseq none none wPk).attn.map
          (fun r => r.kappa)).length)
    ∧ (wPk ::
        (condForward zeroSynthP wInp wCseq none none wPk).attn.map
          (fun r => r.kappa)).get
          ⟨0, by simp [condForward_attn_length, wInp]⟩ 0 0
      ≤ (wPk ::
        (condForward zeroSynthP wInp wCseq none none wPk).attn.map
          (fun r => r.kappa)).get
          ⟨0 + 1, by simp [condForward_attn_length, wInp]⟩ 0 0 :=
  ⟨by simp [condForward_attn_length, wInp],
    cond_kappa_monotone zeroSynthP wInp wCseq none none wPk 0
      (by simp [condForward_attn_length, wInp]) 0 0⟩

/-! ## Claim C7: the soft-window weights and context vector -/

/-- C7: at each step of the conditional forward pass, the window weight at
character position `u` (positions run over `1..U`) is
`Σ_k alpha_k * exp(-beta_k * (kappa_k - u)^2)` with `alpha` and `beta`
read off the elementwise exponential `windowParams` of the linear projection
of the first cell's hidden state, and the context vector is
`Σ_u phi_u * one_hot_u`. -/
theorem cond_attention_window {mc g nc K B U : ℕ} (M : HandWritingSynthRNNP mc g nc K)
    (inp : List (Fin B → Vec 3)) (cseq : Fin B → Fin U → Vec nc)
    (st : Option (List (BState B mc))) (pw : Option (Fin B → Vec nc))
    (pk : Fin B → Fin K → ℝ) (t : ℕ)
    (ht : t < (condForward M inp cseq st pw pk).attn.length) :
    (∀ b u, ((condForward M inp cseq st pw pk).attn.get ⟨t, ht⟩).phi b u
        = ∑ k : Fin K,
            windowParams M ((condForward M inp cseq st pw pk).attn.get ⟨t, ht⟩).h b
                ⟨(k : ℕ), by have := k.isLt; omega⟩
              * Real.exp
                (-(windowParams M
                    ((condForward M inp cseq st pw pk).attn.get ⟨t, ht⟩).h b
                    ⟨K + (k : ℕ), by have := k.isLt; omega⟩)
                  * (((condForward M inp cseq st pw pk).attn.get ⟨t, ht⟩).kappa b k
                      - ((u : ℝ) + 1)) ^ 2))
    ∧ (∀ b ch, ((condForward M inp cseq st pw pk).attn.get ⟨t, ht⟩).window b ch
        = ∑ u, ((condForward M inp cseq st pw pk).attn.get ⟨t, ht⟩).phi b u
            * cseq b u ch) := by
  obtain ⟨x, h0, c0, w0, pk0, heq⟩ :=
    attnSteps_get_shape M cseq inp (optState st 0).1 (optState st 0).2
      (pw.getD (fun _ _ => 0)) pk t ht
  have heq' : ((condForward M inp cseq st pw pk).attn.get ⟨t, ht⟩)
      = attnStep M cseq x h0 c0 w0 pk0 := heq
  rw [heq']
  constructor
  · intro b u
    rw [attnStep_phi_eq, attnStep_beta_eq, attnStep_alpha_eq]
    exact Finset.sum_congr rfl fun k _ => mul_comm _ _
  · intro b ch
    rw [attnStep_window_eq]

/-- Witness for C7: the window formulas at the first step of a concrete run. -/
theorem cond_attention_window_witness :
    (0 < (condForward zeroSynthP wInp wCseq none none wPk).attn.length)
    ∧ ((∀ b u, ((condForward zeroSynthP wInp wCseq none none wPk).attn.get
          ⟨0, by simp [condForward_attn_length, wInp]⟩).phi b u
        = ∑ k : Fin 1,
            windowParams zeroSynthP ((condForward zeroSynthP wInp wCseq none none
                wPk).attn.get ⟨0, by simp [condForward_attn_length, wInp]⟩).h b
                ⟨(k : ℕ), by have := k.isLt; omega⟩
              * Real.exp
                (-(windowParams zeroSynthP ((condForward zeroSynthP wInp wCseq
                    none none wPk).attn.get
                    ⟨0, by simp [condForward_attn_length, wInp]⟩).h b
                    ⟨1 + (k : ℕ), by have := k.isLt; omega⟩)
                  * (((condForward zeroSynthP wInp wCseq none none wPk).attn.get
                      ⟨0, by simp [condForward_attn_length, wInp]⟩).kappa b k
                      - ((u : ℝ) + 1)) ^ 2))
      ∧ (∀ b ch, ((condForward zeroSynthP wInp wCseq none none wPk).attn.get
          ⟨0, by simp [condForward_attn_length, wInp]⟩).window b ch
        = ∑ u, ((condForward zeroSynthP wInp wCseq none none wPk).attn.get
            ⟨0, by simp [condForward_attn_length, wInp]⟩).phi b u
            * wCseq b u ch)) :=
  ⟨by simp [condForward_attn_length, wInp],
    cond_attention_window zeroSynthP wInp wCseq none none wPk 0
      (by simp [condForward_attn_length, wInp])⟩

/-! ## Claim C4: ranges of the mixture head outputs -/

/-- Range invariants of one step's mixture parameters: `pi` sums to 1,
`sigma` is strictly positive, `|rho| < 1` strictly, `e` strictly in (0,1). -/
def MixtureRanges {B g : ℕ} (s : MixtureOut B g) : Prop :=
  (∀ b, ∑ k, s.pi b k = 1) ∧ (∀ b k j, 0 < s.sigma b k j)
    ∧ (∀ b k, |s.rho b k| < 1) ∧ (∀ b, 0 < s.e b ∧ s.e b < 1)

lemma headOut_ranges {B g : ℕ} (hg : 0 < g) (y : Fin B → Vec (6 * g + 1)) :
    MixtureRanges (headOut y) :=
  ⟨fun _ => softmax_sum_one hg _, fun _ _ _ => Real.exp_pos _,
   fun _ _ => abs_tanh_lt_one _, fun _ => ⟨sigmoid_pos _, sigmoid_lt_one _⟩⟩

lemma uncondForward_step_headOut {mc g B : ℕ} (M : HandWritingRNNP mc g)
    (inp : List (Fin B → Vec 3)) (st : Option (List (BState B mc))) (t : ℕ)
    (ht : t < (uncondForward M inp st).1.length) :
    ∃ y, (uncondForward M inp st).1.get ⟨t, ht⟩ = headOut y := by
  have hmem : (uncondForward M inp st).1.get ⟨t, ht⟩
      ∈ (uncondYs M inp st).map headOut := by
    rw [← uncondForward_steps_eq]
    exact List.get_mem _ _ _
  obtain ⟨y, -, hy⟩ := List.mem_map.mp hmem
  exact ⟨y, hy.symm⟩

lemma condForward_step_headOut {mc g nc K B U : ℕ} (M : HandWritingSynthRNNP mc g nc K)
    (inp : List (Fin B → Vec 3)) (cseq : Fin B → Fin U → Vec nc)
    (st : Option (List (BState B mc))) (pw : Option (Fin B → Vec nc))
    (pk : Fin B → Fin K → ℝ) (t : ℕ)
    (ht : t < (condForward M inp cseq st pw pk).steps.length) :
    ∃ y, (condForward M inp cseq st pw pk).steps.get ⟨t, ht⟩ = headOut y := by
  have hmem : (condForward M inp cseq st pw pk).steps.get ⟨t, ht⟩
      ∈ (condYs M inp cseq st pw pk).map headOut := by
    rw [← condForward_steps_eq]
    exact List.get_mem _ _ _
  obtain ⟨y, -, hy⟩ := List.mem_map.mp hmem
  exact ⟨y, hy.symm⟩

/-- C4: for every input and both model variants, every per-step mixture
output satisfies the range invariants (weights sum to 1, `sigma > 0`,
`|rho| < 1`, `e ∈ (0,1)`). -/
theorem forward_mixture_ranges {mc g B mc2 nc K B2 U : ℕ} (hg : 0 < g)
    (M1 : HandWritingRNNP mc g) (inp1 : List (Fin B → Vec 3))
    (st1 : Option (List (BState B mc))) (t1 : ℕ)
    (ht1 : t1 < (uncondForward M1 inp1 st1).1.length)
    (M2 : HandWritingSynthRNNP mc2 g nc K) (inp2 : List (Fin B2 → Vec 3))
    (cseq : Fin B2 → Fin U → Vec nc) (st2 : Option (List (BState B2 mc2)))
    (pw : Option (Fin B2 → Vec nc)) (pk : Fin B2 → Fin K → ℝ) (t2 : ℕ)
    (ht2 : t2 < (condForward M2 inp2 cseq st2 pw pk).steps.length) :
    MixtureRanges ((uncondForward M1 inp1 st1).1.get ⟨t1, ht1⟩)
      ∧ MixtureRanges ((condForward M2 inp2 cseq st2 pw pk).steps.get ⟨t2, ht2⟩) := by
  obtain ⟨y1, hy1⟩ := uncondForward_step_headOut M1 inp1 st1 t1 ht1
  obtain ⟨y2, hy2⟩ := condForward_step_headOut M2 inp2 cseq st2 pw pk t2 ht2
  rw [hy1, hy2]
  exact ⟨headOut_ranges hg y1, headOut_ranges hg y2⟩

/-- Witness for C4: the ranges hold at the first step of concrete runs of
both models. -/
theorem forward_mixture_ranges_witness :
    MixtureRanges ((uncondForward zeroRNNP wInp none).1.get
        ⟨0, by simp [uncondForward_length, wInp]⟩)
    ∧ MixtureRanges ((condForward zeroSynthP wInp wCseq none none wPk).steps.get
        ⟨0, by simp [condForward_steps_length, wInp]⟩) :=
  forward_mixture_ranges Nat.one_pos zeroRNNP wInp none 0
    (by simp [uncondForward_length, wInp]) zeroSynthP wInp wCseq
    none none wPk 0 (by simp [condForward_steps_length, wInp])

/-! ## Claim C1: the composed training loss versus the spec's formula

The training loop (`train.py` lines 257–284) takes the padded stroke tensor
`x` of length `T+1` (a dummy zero point is already prepended in the data),
feeds `inp_x = x[:-1]` through the model, and calls
`criterion(x[1:], e, log_pi, mu, sigma, rho, masks)` — where the tuple
unpacking `e, log_pi, mu, sigma, rho, *_ = model(*inputs)` (line 271) binds
the model's softmax output `pi` to the name `log_pi`, so the softmax
probabilities (not their logarithms) flow into the `log_pi` slot of
`mog_density_2d`. The definitions below compose the unconditional forward
pass with the loss exactly as the code does, and `specLoss` states the loss
the claim describes (a genuine mixture density with weights `pi`). -/

/-- Input slice `x[:-1]` fed to the forward pass by `train`. -/
def trainInp {T B : ℕ} (x : Fin (T + 1) → Fin B → Vec 3) : List (Fin B → Vec 3) :=
  List.ofFn (fun t : Fin T => x t.castSucc)

lemma trainInp_length {T B : ℕ} (x : Fin (T + 1) → Fin B → Vec 3) :
    (trainInp x).length = T := by
  rw [trainInp, List.length_ofFn]

/-- Per-time-step mixture outputs of the unconditional forward pass on the
training input (no incoming states, as in `train`). -/
def uncondTrainSteps {mc g T B : ℕ} (M : HandWritingRNNP mc g)
    (x : Fin (T + 1) → Fin B → Vec 3) : Fin T → MixtureOut B g := fun t =>
  (uncondForward M (trainInp x) none).1.get
    (Fin.cast (by rw [uncondForward_length, trainInp_length]) t)

/-- The scalar loss of one unconditional training step as the code computes
it: `criterion(x[1:], e, pi, mu, sigma, rho, masks)` with the model's
softmax `pi` in the `log_pi` argument (`train.py` lines 271–274). -/
def trainStepLossUncond {mc g T B : ℕ} (M : HandWritingRNNP mc g)
    (x : Fin (T + 1) → Fin B → Vec 3) (masks : Fin T → Fin B → ℝ) : ℝ :=
  criterion (fun i : Fin T × Fin B => x i.1.succ i.2)
    (fun i => (uncondTrainSteps M x i.1).e i.2)
    (fun i => (uncondTrainSteps M x i.1).pi i.2)
    (fun i => (uncondTrainSteps M x i.1).mu i.2)
    (fun i => (uncondTrainSteps M x i.1).sigma i.2)
    (fun i => (uncondTrainSteps M x i.1).rho i.2)
    (fun i => masks i.1 i.2)

/-- Bivariate Gaussian density with correlation, written from the spec's
formula (density `1/(2 pi sx sy sqrt(1-rho^2)) * exp(-z/(2 (1-rho^2)))`). -/
def gauss2dDensity (xv mu sigma : Vec 2) (rho : ℝ) : ℝ :=
  (1 / (2 * Real.pi * sigma 0 * sigma 1 * Real.sqrt (1 - rho ^ 2)))
    * Real.exp (-(((xv 0 - mu 0) / sigma 0) ^ 2 + ((xv 1 - mu 1) / sigma 1) ^ 2
          - 2 * rho * ((xv 0 - mu 0) / sigma 0) * ((xv 1 - mu 1) / sigma 1))
        / (2 * (1 - rho ^ 2)))

/-- Mixture density per the claim's words: the weighted sum over components,
with weights `pi`, of the bivariate Gaussian density. -/
def specMixtureDensity {g : ℕ} (xv : Vec 2) (pi : Fin g → ℝ) (mu : Fin g → Vec 2)
    (sigma : Fin g → Vec 2) (rho : Fin g → ℝ) : ℝ :=
  ∑ k, pi k * gauss2dDensity xv (mu k) (sigma k) (rho k)

open Classical in
/-- Loss formula stated by the claim (C1): the negative of the sum, over
steps with mask 1, of the log of the mixture density (with `sigma += eps`
and `rho /= (1+eps)`) plus the log of the epsilon-renormalized pen-lift
likelihood, divided by the number of mask-1 steps. -/
def specLoss {ι : Type*} [Fintype ι] {g : ℕ} (x : ι → Vec 3) (e : ι → ℝ)
    (pi : ι → Fin g → ℝ) (mu : ι → Fin g → Vec 2) (sigma : ι → Fin g → Vec 2)
    (rho : ι → Fin g → ℝ) (masks : ι → ℝ) : ℝ :=
  -((∑ i, if masks i = 1
        then Real.log (specMixtureDensity (fun j => x i j.succ) (pi i) (mu i)
              (fun k j => sigma i k j + epsillon)
              (fun k => rho i k / (1 + epsillon)))
            + Real.log (e_eps x e i)
        else 0)
      / (∑ i, if masks i = 1 then (1 : ℝ) else 0))

/-- Loss the claim asserts for one unconditional training step: the spec's
formula applied to the same forward-pass outputs. -/
def specTrainStepLossUncond {mc g T B : ℕ} (M : HandWritingRNNP mc g)
    (x : Fin (T + 1) → Fin B → Vec 3) (masks : Fin T → Fin B → ℝ) : ℝ :=
  specLoss (fun i : Fin T × Fin B => x i.1.succ i.2)
    (fun i => (uncondTrainSteps M x i.1).e i.2)
    (fun i => (uncondTrainSteps M x i.1).pi i.2)
    (fun i => (uncondTrainSteps M x i.1).mu i.2)
    (fun i => (uncondTrainSteps M x i.1).sigma i.2)
    (fun i => (uncondTrainSteps M x i.1).rho i.2)
    (fun i => masks i.1 i.2)

lemma log_gauss2dDensity (xv mu sigma : Vec 2) (rho : ℝ)
    (hs0 : 0 < sigma 0) (hs1 : 0 < sigma 1) (hr : rho ^ 2 < 1) :
    Real.log (gauss2dDensity xv mu sigma rho)
      = -((((xv 0 - mu 0) / sigma 0) ^ 2 + ((xv 1 - mu 1) / sigma 1) ^ 2
            - 2 * rho * ((xv 0 - mu 0) / sigma 0) * ((xv 1 - mu 1) / sigma 1))
          / (2 * (1 - rho ^ 2)))
        - (Real.log (2 * Real.pi) + Real.log (sigma 0) + Real.log (sigma 1)
            + 0.5 * Real.log (1 - rho ^ 2)) := by
  have h1 : (0 : ℝ) < 1 - rho ^ 2 := by linarith
  have hsq : 0 < Real.sqrt (1 - rho ^ 2) := Real.sqrt_pos.mpr h1
  have h2pi : (0 : ℝ) < 2 * Real.pi := by positivity
  unfold gauss2dDensity
  rw [Real.log_mul (one_div_ne_zero (by positivity)) (Real.exp_ne_zero _),
    Real.log_exp, one_div, Real.log_inv,
    Real.log_mul (by positivity) (ne_of_gt hsq),
    Real.log_mul (by positivity) (ne_of_gt hs1),
    Real.log_mul (ne_of_gt h2pi) (ne_of_gt hs0),
    Real.log_sqrt h1.le]
  ring

/-- Single-component comparison: with one mixture component whose weight is
1 (as the softmax of a single logit always is), the value `mog_density_2d`
computes is the true mixture log-density plus 1 — the extra 1 being the
probability weight that the code adds where a log-weight belongs. -/
lemma mog_density_2d_g1 (xv : Vec 2) (pi1 : Fin 1 → ℝ) (mu1 : Fin 1 → Vec 2)
    (sigma1 : Fin 1 → Vec 2) (rho1 : Fin 1 → ℝ) (hpi : pi1 0 = 1)
    (hs0 : 0 < sigma1 0 0) (hs1 : 0 < sigma1 0 1) (hr : rho1 0 ^ 2 < 1) :
    mog_density_2d xv pi1 mu1 sigma1 rho1
      = Real.log (specMixtureDensity xv pi1 mu1 sigma1 rho1) + 1 := by
  unfold mog_density_2d specMixtureDensity
  rw [Fin.sum_univ_one, Fin.sum_univ_one, Real.log_exp, hpi, one_mul,
    log_gauss2dDensity xv (mu1 0) (sigma1 0) (rho1 0) hs0 hs1 hr]
  unfold mogTerm
  rw [hpi, Fin.sum_univ_two]

/-- Range invariants transported to the training-step outputs. -/
lemma uncondTrainSteps_ranges {mc g T B : ℕ} (hg : 0 < g) (M : HandWritingRNNP mc g)
    (x : Fin (T + 1) → Fin B → Vec 3) (t : Fin T) :
    MixtureRanges (uncondTrainSteps M x t) := by
  obtain ⟨y, hy⟩ := uncondForward_step_headOut M (trainInp x) none t
    (by rw [uncondForward_length, trainInp_length]; exact t.isLt)
  have hstep : uncondTrainSteps M x t = headOut y := hy
  rw [hstep]
  exact headOut_ranges hg y

/-- C1 (divergence demonstration): with a single mixture component, the loss
computed by the composed forward pass and `criterion` is exactly the spec's
loss minus 1, hence never equal to it: the training loop passes the softmax
probabilities `pi` into the `log_pi` slot of the loss, so `mog_density_2d`
adds `pi` (which is 1 for a single component) inside its `logsumexp` where
the spec's formula has `log pi` (which is 0). -/
theorem trainStepLossUncond_ne_specLoss {mc T B : ℕ} (M : HandWritingRNNP mc 1)
    (x : Fin (T + 1) → Fin B → Vec 3) (masks : Fin T → Fin B → ℝ)
    (hb : ∀ t b, masks t b = 0 ∨ masks t b = 1)
    (hc : (∑ i : Fin T × Fin B, masks i.1 i.2) ≠ 0) :
    trainStepLossUncond M x masks = specTrainStepLossUncond M x masks - 1
      ∧ trainStepLossUncond M x masks ≠ specTrainStepLossUncond M x masks := by
  have key : ∀ i : Fin T × Fin B,
      stepLogDensity (fun i : Fin T × Fin B => x i.1.succ i.2)
        (fun i => (uncondTrainSteps M x i.1).pi i.2)
        (fun i => (uncondTrainSteps M x i.1).mu i.2)
        (fun i => (uncondTrainSteps M x i.1).sigma i.2)
        (fun i => (uncondTrainSteps M x i.1).rho i.2) i
      = Real.log (specMixtureDensity (fun j => x i.1.succ i.2 j.succ)
          ((uncondTrainSteps M x i.1).pi i.2) ((uncondTrainSteps M x i.1).mu i.2)
          (fun k j => (uncondTrainSteps M x i.1).sigma i.2 k j + epsillon)
          (fun k => (uncondTrainSteps M x i.1).rho i.2 k / (1 + epsillon))) + 1 := by
    intro i
    obtain ⟨hpi, hsig, hrho, -⟩ := uncondTrainSteps_ranges Nat.one_pos M x i.1
    unfold stepLogDensity
    apply mog_density_2d_g1
    · show (uncondTrainSteps M x i.1).pi i.2 0 = 1
      have hs := hpi i.2
      rwa [Fin.sum_univ_one] at hs
    · show 0 < (uncondTrainSteps M x i.1).sigma i.2 0 0 + epsillon
      have h0 := hsig i.2 0 0
      have he := epsillon_pos
      linarith
    · show 0 < (uncondTrainSteps M x i.1).sigma i.2 0 1 + epsillon
      have h1 := hsig i.2 0 1
      have he := epsillon_pos
      linarith
    · show ((uncondTrainSteps M x i.1).rho i.2 0 / (1 + epsillon)) ^ 2 < 1
      have habs := hrho i.2 0
      have he := epsillon_pos
      have hq : |(uncondTrainSteps M x i.1).rho i.2 0 / (1 + epsillon)| < 1 := by
        rw [abs_div, abs_of_pos (by linarith : (0 : ℝ) < 1 + epsillon),
          div_lt_one (by linarith : (0 : ℝ) < 1 + epsillon)]
        have := abs_nonneg ((uncondTrainSteps M x i.1).rho i.2 0)
        linarith
      calc ((uncondTrainSteps M x i.1).rho i.2 0 / (1 + epsillon)) ^ 2
          = |(uncondTrainSteps M x i.1).rho i.2 0 / (1 + epsillon)| ^ 2 :=
            (sq_abs _).symm
        _ < 1 := by
            apply pow_lt_one₀ (abs_nonneg _) hq
            omega
  have hmain : trainStepLossUncond M x masks = specTrainStepLossUncond M x masks - 1 := by
    unfold trainStepLossUncond specTrainStepLossUncond criterion specLoss
    have h2 : (∑ i : Fin T × Fin B, if masks i.1 i.2 = 1
          then Real.log (specMixtureDensity (fun j => x i.1.succ i.2 j.succ)
                ((uncondTrainSteps M x i.1).pi i.2)
                ((uncondTrainSteps M x i.1).mu i.2)
                (fun k j => (uncondTrainSteps M x i.1).sigma i.2 k j + epsillon)
                (fun k => (uncondTrainSteps M x i.1).rho i.2 k / (1 + epsillon)))
              + Real.log (e_eps (fun i : Fin T × Fin B => x i.1.succ i.2)
                (fun i => (uncondTrainSteps M x i.1).e i.2) i)
          else 0)
        = ∑ i : Fin T × Fin B,
            (Real.log (specMixtureDensity (fun j => x i.1.succ i.2 j.succ)
                ((uncondTrainSteps M x i.1).pi i.2)
                ((uncondTrainSteps M x i.1).mu i.2)
                (fun k j => (uncondTrainSteps M x i.1).sigma i.2 k j + epsillon)
                (fun k => (uncondTrainSteps M x i.1).rho i.2 k / (1 + epsillon)))
              + Real.log (e_eps (fun i : Fin T × Fin B => x i.1.succ i.2)
                (fun i => (uncondTrainSteps M x i.1).e i.2) i)) * masks i.1 i.2 := by
      apply Finset.sum_congr rfl
      intro i _
      rcases hb i.1 i.2 with h0 | h1
      · rw [if_neg (by rw [h0]; norm_num), h0, mul_zero]
      · rw [if_pos h1, h1, mul_one]
    have h3 : (∑ i : Fin T × Fin B, if masks i.1 i.2 = 1 then (1 : ℝ) else 0)
        = ∑ i : Fin T × Fin B, masks i.1 i.2 := by
      apply Finset.sum_congr rfl
      intro i _
      rcases hb i.1 i.2 with h0 | h1
      · rw [if_neg (by rw [h0]; norm_num), h0]
      · rw [if_pos h1, h1]
    rw [h2, h3]
    have h4 : (∑ i : Fin T × Fin B,
          (stepLogDensity (fun i : Fin T × Fin B => x i.1.succ i.2)
            (fun i => (uncondTrainSteps M x i.1).pi i.2)
            (fun i => (uncondTrainSteps M x i.1).mu i.2)
            (fun i => (uncondTrainSteps M x i.1).sigma i.2)
            (fun i => (uncondTrainSteps M x i.1).rho i.2) i
            + Real.log (e_eps (fun i : Fin T × Fin B => x i.1.succ i.2)
                (fun i => (uncondTrainSteps M x i.1).e i.2) i)) * masks i.1 i.2)
        = (∑ i : Fin T × Fin B,
            (Real.log (specMixtureDensity (fun j => x i.1.succ i.2 j.succ)
                ((uncondTrainSteps M x i.1).pi i.2)
                ((uncondTrainSteps M x i.1).mu i.2)
                (fun k j => (uncondTrainSteps M x i.1).sigma i.2 k j + epsillon)
                (fun k => (uncondTrainSteps M x i.1).rho i.2 k / (1 + epsillon)))
              + Real.log (e_eps (fun i : Fin T × Fin B => x i.1.succ i.2)
                (fun i => (uncondTrainSteps M x i.1).e i.2) i)) * masks i.1 i.2)
          + ∑ i : Fin T × Fin B, masks i.1 i.2 := by
      rw [← Finset.sum_add_distrib]
      apply Finset.sum_congr rfl
      intro i _
      rw [key i]
      ring
    rw [h4]
    field_simp
    ring
  exact ⟨hmain, by
    rw [hmain]
    intro hcontr
    have : (1 : ℝ) = 0 := by linarith
    norm_num at this⟩

/-- Concrete stroke tensor (dummy zero start plus one step) for the C1
witness. -/
def wStroke : Fin 2 → Fin 1 → Vec 3 := fun _ _ _ => 0

/-- Concrete all-ones mask for the C1 witness. -/
def wMask : Fin 1 → Fin 1 → ℝ := fun _ _ => 1

/-- Witness for C1's divergence theorem: a concrete one-step, batch-one run
with an all-ones mask. -/
theorem trainStepLossUncond_ne_specLoss_witness :
    (∀ t b : Fin 1, wMask t b = 0 ∨ wMask t b = 1)
    ∧ (∑ i : Fin 1 × Fin 1, wMask i.1 i.2) ≠ 0
    ∧ (trainStepLossUncond zeroRNNP wStroke wMask
          = specTrainStepLossUncond zeroRNNP wStroke wMask - 1
        ∧ trainStepLossUncond zeroRNNP wStroke wMask
          ≠ specTrainStepLossUncond zeroRNNP wStroke wMask) :=
  ⟨fun _ _ => Or.inr rfl, by simp [wMask],
    trainStepLossUncond_ne_specLoss zeroRNNP wStroke wMask
      (fun _ _ => Or.inr rfl) (by simp [wMask])⟩

/-! ## The sampler (`model.py` lines 105–141 and 312–347)

Both `generate` loops draw, per step and in this order: the pen-lift bit
from `Bernoulli(e)`, the active component from `Categorical(pi)`, and the
2-D offset from a `MultivariateNormal` with the gathered parameters.
Randomness is embedded as a deterministic function of an RNG stream
`s : ℕ → ℝ` together with the next position to consume: the positions used
by a Bernoulli or categorical draw are interpreted as uniforms (inverse
transform sampling), and those used by the normal draw as standard normals
(torch samples `mu + L z` with `L` the Cholesky factor of the covariance).
Draw order is therefore exactly the order of stream consumption. -/

open Classical in
/-- Bernoulli draw by inverse transform: 1 iff the uniform falls below `p`. -/
def bernoulliSample (p u : ℝ) : ℝ := if u < p then 1 else 0

open Classical in
/-- Categorical draw by inverse transform: the least index whose cumulative
weight exceeds the uniform `u` (last index as fallback). -/
def categoricalSample {g : ℕ} [NeZero g] (p : Fin g → ℝ) (u : ℝ) : Fin g :=
  if h : (Finset.univ.filter
      (fun k : Fin g => u < ∑ j ∈ Finset.univ.filter (fun j => j ≤ k), p j)).Nonempty
  then (Finset.univ.filter
      (fun k : Fin g => u < ∑ j ∈ Finset.univ.filter (fun j => j ≤ k), p j)).min' h
  else ⟨g - 1, by have := NeZero.pos g; omega⟩

/-- torch `gather` along dim 1 of a `(B, g, 2)` tensor with a `(B, 1, 2)`
index tensor: `out[b, i, j] = inp[b, index[b, i, j], j]`. -/
def gatherDim1 {B g : ℕ} (inp : Fin B → Fin g → Vec 2)
    (index : Fin B → Fin 1 → Fin 2 → Fin g) : Fin B → Fin 1 → Fin 2 → ℝ :=
  fun b i j => inp b (index b i j) j

/-- torch `gather` along dim 1 of a `(B, g)` tensor with a `(B, 1)` index. -/
def gatherDim1Flat {B g : ℕ} (inp : Fin B → Fin g → ℝ)
    (index : Fin B → Fin 1 → Fin g) : Fin B → Fin 1 → ℝ :=
  fun b i => inp b (index b i)

/-- In-place entry assignment `t[:, i, j] = v` on a batch of 2×2 matrices. -/
def setEntry {B : ℕ} (m : Fin B → Fin 2 → Fin 2 → ℝ) (i j : Fin 2)
    (v : Fin B → ℝ) : Fin B → Fin 2 → Fin 2 → ℝ :=
  fun b a c => if a = i ∧ c = j then v b else m b a c

/-- The covariance assembly of the sampler: `new_zeros(batch, 2, 2)` followed
by the four assignments of `model.py` lines 132–136 (the last one copies the
already-written `[:,0,1]` entry). -/
def sampleCov {B : ℕ} (sigsel : Fin B → Vec 2) (rhosel : Fin B → ℝ) :
    Fin B → Fin 2 → Fin 2 → ℝ :=
  let s0 : Fin B → Fin 2 → Fin 2 → ℝ := fun _ _ _ => 0
  let s1 := setEntry s0 0 0 (fun b => sigsel b 0 ^ 2)
  let s2 := setEntry s1 1 1 (fun b => sigsel b 1 ^ 2)
  let s3 := setEntry s2 0 1 (fun b => rhosel b * sigsel b 0 * sigsel b 1)
  setEntry s3 1 0 (fun b => s3 b 0 1)

/-- Lower Cholesky factor of a 2×2 matrix, the `scale_tril` torch derives
from `covariance_matrix` for sampling. -/
def chol2 (S : Fin 2 → Fin 2 → ℝ) : Fin 2 → Fin 2 → ℝ := fun i j =>
  if i = 0 ∧ j = 0 then Real.sqrt (S 0 0)
  else if i = 1 ∧ j = 0 then S 1 0 / Real.sqrt (S 0 0)
  else if i = 1 ∧ j = 1 then Real.sqrt (S 1 1 - S 1 0 ^ 2 / S 0 0)
  else 0

/-- Multivariate-normal draw `mu + L z` with `L` the Cholesky factor of the
covariance matrix `S` and `z` a pair of standard-normal draws. -/
def mvNormalSample (mu : Vec 2) (S : Fin 2 → Fin 2 → ℝ) (z : Vec 2) : Vec 2 :=
  fun j => mu j + ∑ k, chol2 S j k * z k

/-- One sampling step shared by both `generate` loops: Bernoulli bits consume
stream positions `c..c+B-1`, categorical component draws consume
`c+B..c+2B-1`, the normal draws consume the pairs `c+2B+2b, c+2B+2b+1`, and
the advanced position is `c+4B`. The gather uses `index_2 = stack([index_1,
index_1])` — the same sampled component index for both offset axes. The
`.squeeze()` of the source is embedded as dropping the singleton gather axis
(its effect for batch ≥ 2; for batch = 1 torch's `squeeze` would also drop
the batch axis and the source's following 2-D indexing raises). -/
def sampleStep {B g : ℕ} [NeZero g] (m : MixtureOut B g) (s : ℕ → ℝ) (c : ℕ) :
    (Fin B → Vec 3) × ℕ :=
  let bit : Fin B → ℝ := fun b => bernoulliSample (m.e b) (s (c + (b : ℕ)))
  let comp : Fin B → Fin g := fun b =>
    categoricalSample (m.pi b) (s (c + B + (b : ℕ)))
  let index1 : Fin B → Fin 1 → Fin g := fun b _ => comp b
  let index2 : Fin B → Fin 1 → Fin 2 → Fin g := fun b i j =>
    ![index1 b i, index1 b i] j
  let musel : Fin B → Vec 2 := fun b j => gatherDim1 m.mu index2 b 0 j
  let sigsel : Fin B → Vec 2 := fun b j => gatherDim1 m.sigma index2 b 0 j
  let rhosel : Fin B → ℝ := fun b => gatherDim1Flat m.rho index1 b 0
  let sigma2d := sampleCov sigsel rhosel
  let off : Fin B → Vec 2 := fun b =>
    mvNormalSample (musel b) (sigma2d b)
      ![s (c + 2 * B + 2 * (b : ℕ)), s (c + 2 * B + 2 * (b : ℕ) + 1)]
  (fun b => ![bit b, off b 0, off b 1], c + 4 * B)

lemma sampleCov_eq {B : ℕ} (sigsel : Fin B → Vec 2) (rhosel : Fin B → ℝ)
    (b : Fin B) :
    sampleCov sigsel rhosel b
      = ![![sigsel b 0 ^ 2, rhosel b * sigsel b 0 * sigsel b 1],
          ![rhosel b * sigsel b 0 * sigsel b 1, sigsel b 1 ^ 2]] := by
  funext a d
  fin_cases a <;> fin_cases d <;> simp [sampleCov, setEntry]

/-! ## Claim C9: draw order, same-index gather, covariance structure -/

/-- C9: each sampling step draws, in stream order, the pen-lift bit from
`Bernoulli(e)` at position `c+b`, the component index from `Categorical(pi)`
at position `c+B+b`, and the 2-D offset from a multivariate normal at
positions `c+2B+2b(+1)` whose mean gathers `mu` with that same component
index on both axes and whose covariance is the symmetric matrix with
diagonal `(sigma_x^2, sigma_y^2)` and off-diagonal `rho*sigma_x*sigma_y`;
the stream position advances by `4B`. -/
theorem sampleStep_draws {B g : ℕ} [NeZero g] (m : MixtureOut B g) (s : ℕ → ℝ)
    (c : ℕ) (b : Fin B) :
    ((sampleStep m s c).1 b 0 = bernoulliSample (m.e b) (s (c + (b : ℕ))))
    ∧ (∀ j : Fin 2, (sampleStep m s c).1 b j.succ
        = mvNormalSample
            (fun j' => m.mu b (categoricalSample (m.pi b) (s (c + B + (b : ℕ)))) j')
            ![![m.sigma b (categoricalSample (m.pi b) (s (c + B + (b : ℕ)))) 0 ^ 2,
                m.rho b (categoricalSample (m.pi b) (s (c + B + (b : ℕ))))
                  * m.sigma b (categoricalSample (m.pi b) (s (c + B + (b : ℕ)))) 0
                  * m.sigma b (categoricalSample (m.pi b) (s (c + B + (b : ℕ)))) 1],
              ![m.rho b (categoricalSample (m.pi b) (s (c + B + (b : ℕ))))
                  * m.sigma b (categoricalSample (m.pi b) (s (c + B + (b : ℕ)))) 0
                  * m.sigma b (categoricalSample (m.pi b) (s (c + B + (b : ℕ)))) 1,
                m.sigma b (categoricalSample (m.pi b) (s (c + B + (b : ℕ)))) 1 ^ 2]]
            ![s (c + 2 * B + 2 * (b : ℕ)), s (c + 2 * B + 2 * (b : ℕ) + 1)] j)
    ∧ ((sampleStep m s c).2 = c + 4 * B) := by
  refine ⟨rfl, ?_, rfl⟩
  intro j
  have hcov : sampleCov
      (fun b j => gatherDim1 m.sigma
        (fun b i j => ![categoricalSample (m.pi b) (s (c + B + (b : ℕ))),
          categoricalSample (m.pi b) (s (c + B + (b : ℕ)))] j) b 0 j)
      (fun b => gatherDim1Flat m.rho
        (fun b _ => categoricalSample (m.pi b) (s (c + B + (b : ℕ)))) b 0) b
      = ![![m.sigma b (categoricalSample (m.pi b) (s (c + B + (b : ℕ)))) 0 ^ 2,
            m.rho b (categoricalSample (m.pi b) (s (c + B + (b : ℕ))))
              * m.sigma b (categoricalSample (m.pi b) (s (c + B + (b : ℕ)))) 0
              * m.sigma b (categoricalSample (m.pi b) (s (c + B + (b : ℕ)))) 1],
          ![m.rho b (categoricalSample (m.pi b) (s (c + B + (b : ℕ))))
              * m.sigma b (categoricalSample (m.pi b) (s (c + B + (b : ℕ)))) 0
              * m.sigma b (categoricalSample (m.pi b) (s (c + B + (b : ℕ)))) 1,
            m.sigma b (categoricalSample (m.pi b) (s (c + B + (b : ℕ)))) 1 ^ 2]] := by
    rw [sampleCov_eq]
    simp [gatherDim1, gatherDim1Flat]
  fin_cases j
  · show mvNormalSample _ _ _ 0 = mvNormalSample _ _ _ 0
    rw [show (sampleCov _ _ b) = _ from hcov]
    simp [gatherDim1, mvNormalSample]
  · show mvNormalSample _ _ _ 1 = mvNormalSample _ _ _ 1
    rw [show (sampleCov _ _ b) = _ from hcov]
    simp [gatherDim1, mvNormalSample]

/-! ## The generation loops (`model.HandWritingRNN.generate` lines 91–142
and `model.HandWritingSynthRNN.generate` lines 287–349) -/

/-- Never-reached `getLastD` default: the forward pass of a one-row slice
always produces exactly one step. -/
def zeroMixtureOut {B g : ℕ} : MixtureOut B g :=
  ⟨fun _ => 0, fun _ _ => 0, fun _ _ _ => 0, fun _ _ _ => 0, fun _ _ => 0⟩

/-- One iteration record of a generation loop: the row fed to the forward
pass (`samples[i-1:i]`) and the row sampled into `samples[i]`. -/
structure GenStep (B : ℕ) where
  fed : Fin B → Vec 3
  out : Fin B → Vec 3

/-- The iteration `for i in range(1, length+1)` of the unconditional
`generate`: each pass feeds the previous row through `forward` with the
carried LSTM states (`e[-1]` etc. pick the last — only — step of the
one-row slice) and samples the next row. -/
def uncondGenLoop {mc g B : ℕ} [NeZero g] (M : HandWritingRNNP mc g)
    (s : ℕ → ℝ) :
    ℕ → (Fin B → Vec 3) → Option (List (BState B mc)) → ℕ → List (GenStep B)
  | 0, _, _, _ => []
  | n + 1, prev, st, c =>
    let fw := uncondForward M [prev] st
    let mo := fw.1.getLastD zeroMixtureOut
    let smp := sampleStep mo s c
    ⟨prev, smp.1⟩ :: uncondGenLoop M s n smp.1 (some fw.2) smp.2

/-- Embedding of `HandWritingRNN.generate`: the samples buffer starts as
zeros (`torch.zeros(length+1, batch, 3)`), so the row fed to the first
forward call is the all-zero dummy point; the returned value is
`samples[1:]` — exactly the `length` sampled rows, the dummy row excluded. -/
def uncondGenerate {mc g : ℕ} [NeZero g] (M : HandWritingRNNP mc g)
    (length B : ℕ) (s : ℕ → ℝ) : List (Fin B → Vec 3) :=
  (uncondGenLoop M s length (fun _ _ => 0) none 0).map (fun r => r.out)

/-- Trace of the rows fed to the forward pass by the unconditional
generation loop. -/
def uncondGenTrace {mc g : ℕ} [NeZero g] (M : HandWritingRNNP mc g)
    (length B : ℕ) (s : ℕ → ℝ) : List (Fin B → Vec 3) :=
  (uncondGenLoop M s length (fun _ _ => 0) none 0).map (fun r => r.fed)

/-- The iteration of the conditional `generate`: carries LSTM states, the
context window and `kappa` (both zero-initialized before the loop). -/
def condGenLoop {mc g nc K B U : ℕ} [NeZero g] (M : HandWritingSynthRNNP mc g nc K)
    (cseq : Fin B → Fin U → Vec nc) (s : ℕ → ℝ) :
    ℕ → (Fin B → Vec 3) → Option (List (BState B mc)) → (Fin B → Vec nc) →
      (Fin B → Fin K → ℝ) → ℕ → List (GenStep B)
  | 0, _, _, _, _, _ => []
  | n + 1, prev, st, w, kp, c =>
    let fw := condForward M [prev] cseq st (some w) kp
    let mo := fw.steps.getLastD zeroMixtureOut
    let smp := sampleStep mo s c
    ⟨prev, smp.1⟩ :: condGenLoop M cseq s n smp.1 (some fw.states) fw.window fw.kappa smp.2

/-- Padded length of a batch of one-hot sentences (`pad_sequence`). -/
def padSentDim {B nc : ℕ} (sents : Fin B → List (Vec nc)) : ℕ :=
  Finset.univ.sup (fun b => (sents b).length)

/-- `pad_sequence(sentences, batch_first=True, padding_value=0.0)`. -/
def padSentences {B nc : ℕ} (sents : Fin B → List (Vec nc)) :
    Fin B → Fin (padSentDim sents) → Vec nc :=
  fun b u => (sents b).getD u (fun _ => 0)

/-- Embedding of `HandWritingSynthRNN.generate`: pads the sentences, runs the
hard-coded 600 iterations, and returns `samples[1:]`. The source allocates
the buffer with `torch.empty(length+1, batch, 3)` and never writes row 0, so
the row fed to the first forward call is whatever uninitialized memory the
allocation produced — embedded as the arbitrary parameter `empty0`. -/
def condGenerate {mc g nc K B : ℕ} [NeZero g] (M : HandWritingSynthRNNP mc g nc K)
    (sents : Fin B → List (Vec nc)) (empty0 : Fin B → Vec 3) (s : ℕ → ℝ) :
    List (Fin B → Vec 3) :=
  (condGenLoop M (padSentences sents) s 600 empty0 none (fun _ _ => 0)
    (fun _ _ => 0) 0).map (fun r => r.out)

/-- Trace of the rows fed to the forward pass by the conditional generation
loop. -/
def condGenTrace {mc g nc K B : ℕ} [NeZero g] (M : HandWritingSynthRNNP mc g nc K)
    (sents : Fin B → List (Vec nc)) (empty0 : Fin B → Vec 3) (s : ℕ → ℝ) :
    List (Fin B → Vec 3) :=
  (condGenLoop M (padSentences sents) s 600 empty0 none (fun _ _ => 0)
    (fun _ _ => 0) 0).map (fun r => r.fed)

lemma uncondGenLoop_length {mc g B : ℕ} [NeZero g] (M : HandWritingRNNP mc g)
    (s : ℕ → ℝ) :
    ∀ (n : ℕ) (prev : Fin B → Vec 3) (st : Option (List (BState B mc))) (c : ℕ),
      (uncondGenLoop M s n prev st c).length = n := by
  intro n
  induction n with
  | zero => intro prev st c; rfl
  | succ n ih => intro prev st c; simp [uncondGenLoop, ih]

lemma condGenLoop_length {mc g nc K B U : ℕ} [NeZero g]
    (M : HandWritingSynthRNNP mc g nc K) (cseq : Fin B → Fin U → Vec nc)
    (s : ℕ → ℝ) :
    ∀ (n : ℕ) (prev : Fin B → Vec 3) (st : Option (List (BState B mc)))
      (w : Fin B → Vec nc) (kp : Fin B → Fin K → ℝ) (c : ℕ),
      (condGenLoop M cseq s n prev st w kp c).length = n := by
  intro n
  induction n with
  | zero => intro prev st w kp c; rfl
  | succ n ih => intro prev st w kp c; simp [condGenLoop, ih]

/-! ## Claim C6: the dummy first point and the returned sample count -/

/-- Concrete one-character sentence batch for the C6 demonstration. -/
def wSent : Fin 1 → List (Vec 1) := fun _ => [fun _ => 1]

/-- Concrete nonzero "uninitialized memory" contents for the C6
demonstration. -/
def wGarbage : Fin 1 → Vec 3 := fun _ _ => 1

/-- C6 (divergence demonstration): the unconditional `generate` feeds the
all-zero dummy row to its first forward call and returns exactly
`step_count` rows (the dummy excluded); the conditional `generate` also
returns exactly its 600 rows without the first buffer row, but the row it
feeds to the first forward call is the uninitialized `torch.empty` row — for
any nonzero memory contents (e.g. all ones) it is not the all-zero dummy
point the claim describes. -/
theorem generate_first_input_and_length {mc g mc2 g2 nc K B B2 : ℕ}
    [NeZero g] [NeZero g2] (M1 : HandWritingRNNP mc g)
    (M2 : HandWritingSynthRNNP mc2 g2 nc K) (len : ℕ) (s1 s2 s3 : ℕ → ℝ)
    (sents : Fin B2 → List (Vec nc)) (empty0 : Fin B2 → Vec 3) :
    ((uncondGenerate M1 len B s1).length = len)
    ∧ ((uncondGenTrace M1 (len + 1) B s1).head? = some (fun _ _ => 0))
    ∧ ((condGenerate M2 sents empty0 s2).length = 600)
    ∧ ((condGenTrace M2 sents empty0 s2).head? = some empty0)
    ∧ ((condGenTrace zeroSynthP wSent wGarbage s3).head?
        ≠ some (fun _ _ => 0)) := by
  refine ⟨?_, rfl, ?_, rfl, ?_⟩
  · rw [uncondGenerate, List.length_map, uncondGenLoop_length]
  · rw [condGenerate, List.length_map, condGenLoop_length]
  · intro h
    have h1 : wGarbage = fun _ _ => (0 : ℝ) := by
      have h2 : (condGenTrace zeroSynthP wSent wGarbage s3).head? = some wGarbage := rfl
      rw [h2] at h
      exact Option.some_injective _ h
    have := congrFun (congrFun h1 0) 0
    rw [wGarbage] at this
    exact one_ne_zero this

/-- Concrete all-zero RNG stream for witnesses. -/
def wStream : ℕ → ℝ := fun _ => 0

/-- Concrete mixture output (all parameters zero) for the C9 witness. -/
def wMix : MixtureOut 1 1 := zeroMixtureOut

/-- Witness for C9: the stream-position advance at a concrete sampling step
(the `NeZero` side condition instantiated at one component). -/
theorem sampleStep_draws_witness : (sampleStep wMix wStream 0).2 = 0 + 4 * 1 :=
  (sampleStep_draws wMix wStream 0 0).2.2

/-- Witness for C6's theorem: the generated-row count of a concrete
unconditional run (the `NeZero` side conditions instantiated at one
component). -/
theorem generate_first_input_and_length_witness :
    (uncondGenerate zeroRNNP 5 1 wStream).length = 5 :=
  (generate_first_input_and_length zeroRNNP zeroSynthP 5 wStream wStream wStream
    wSent wGarbage).1

/-! ## Claim C2: what the third argument of the conditional forward binds to

`HandWritingSynthRNN.forward` has parameters
`(inp, c_seq, lstm_in_states, prev_window, prev_kappa)` — there is no
per-character-mask parameter. The training loop builds
`inputs = (inp_x, c_seq, c_masks)` and calls `model(*inputs)`
(`train.py` lines 266–271), so the `(B, U)` mask tensor binds positionally
to `lstm_in_states`. `PyStatesArg` embeds the dynamically-typed argument and
`condForwardDyn` what the forward pass does with it. -/

/-- Dynamically-typed third positional argument of the conditional forward:
`None`, a list of `(h, c)` state pairs, or — as `train` passes — a `(B, U)`
float matrix. -/
inductive PyStatesArg (B U mc : ℕ) where
  | pyNone : PyStatesArg B U mc
  | states : List (BState B mc) → PyStatesArg B U mc
  | floatMat : (Fin B → Fin U → ℝ) → PyStatesArg B U mc

/-- The conditional forward pass on a dynamically-typed `lstm_in_states`
argument. For `None` or a state list it is `condForward`. For a float
matrix, line 211's unpacking `h, c = lstm_in_states[0]` takes row 0 of the
matrix (an `IndexError` if `B = 0`) and tuple-unpacks it: a length-`U` row
fails to unpack into two values unless `U = 2`, and when `U = 2` the two
unpacked scalars are rejected by the `LSTMCell` call as states of the wrong
shape — every float-matrix case raises instead of computing a forward
pass. -/
def condForwardDyn {mc g nc K B U : ℕ} (M : HandWritingSynthRNNP mc g nc K)
    (inp : List (Fin B → Vec 3)) (cseq : Fin B → Fin U → Vec nc)
    (arg : PyStatesArg B U mc) (pw : Option (Fin B → Vec nc))
    (pk : Fin B → Fin K → ℝ) : Except String (CondOut B g mc nc K U) :=
  match arg with
  | .pyNone => .ok (condForward M inp cseq none pw pk)
  | .states l => .ok (condForward M inp cseq (some l) pw pk)
  | .floatMat _ =>
    if B = 0 then .error "IndexError: index 0 is out of bounds for dimension 0"
    else if U = 2 then
      .error "RuntimeError: LSTMCell: Expected hidden of size (B, memory_cells)"
    else .error "ValueError: too many values to unpack (expected 2)"

/-- The conditional training forward call `model(inp_x, c_seq, c_masks)` of
`train.py` lines 266–271: three positional arguments, so the per-character
mask occupies the `lstm_in_states` slot while `prev_window` and `prev_kappa`
keep their defaults (`None` and `0`). -/
def trainCondForwardCall {mc g nc K B U : ℕ} (M : HandWritingSynthRNNP mc g nc K)
    (inp : List (Fin B → Vec 3)) (cseq : Fin B → Fin U → Vec nc)
    (cmasks : Fin B → Fin U → ℝ) : Except String (CondOut B g mc nc K U) :=
  condForwardDyn M inp cseq (.floatMat cmasks) none (fun _ _ => 0)

/-- Counterexample to C2 as stated: at a concrete conditional training batch
(batch 1, one character), the forward call with the per-character mask in
the third positional slot raises instead of accepting and using the mask. -/
theorem trainCondForwardCall_fails_concrete :
    trainCondForwardCall zeroSynthP wInp wCseq (fun _ _ => 1)
      = .error "ValueError: too many values to unpack (expected 2)" := rfl

/-- C2 (amended): the conditional forward pass has no per-character-mask
parameter; `train` passes `c_masks` as the third positional argument, where
it binds to `lstm_in_states`, and the call fails for every input rather than
using the mask — while the same forward with a well-typed `lstm_in_states`
argument (here `None`) succeeds. -/
theorem condForward_mask_binding {mc g nc K B U : ℕ}
    (M : HandWritingSynthRNNP mc g nc K) (inp : List (Fin B → Vec 3))
    (cseq : Fin B → Fin U → Vec nc) (cmasks : Fin B → Fin U → ℝ) :
    (trainCondForwardCall M inp cseq cmasks
        = condForwardDyn M inp cseq (.floatMat cmasks) none (fun _ _ => 0))
    ∧ (∃ msg, trainCondForwardCall M inp cseq cmasks = Except.error msg)
    ∧ (∀ (pw : Option (Fin B → Vec nc)) (pk : Fin B → Fin K → ℝ),
        condForwardDyn M inp cseq PyStatesArg.pyNone pw pk
          = Except.ok (condForward M inp cseq none pw pk)) := by
  refine ⟨rfl, ?_, fun pw pk => rfl⟩
  show ∃ msg, condForwardDyn M inp cseq (.floatMat cmasks) none (fun _ _ => 0)
      = Except.error msg
  simp only [condForwardDyn]
  split_ifs <;> exact ⟨_, rfl⟩

/-! ## Claim C10: the conditional model construction in `train`

Python binds a call's keyword arguments against the callee's parameter
names; a keyword that names no parameter raises `TypeError` before the
function body runs. `HandWritingSynthRNN.__init__` (`model.py` lines
149–158) declares exactly the parameters below (all with defaults, so no
missing-argument failure is possible), while `train` (`train.py` lines
222–231) calls the constructor with the keywords below (the expansion of
`**common_model_structure` included). -/

/-- Parameter names of `HandWritingSynthRNN.__init__`. -/
def synthInitParamNames : List String :=
  ["memory_cells", "n_gaussians", "num_layers", "n_gaussians_window",
   "n_char", "max_stroke_len", "max_sentence_len"]

/-- Keyword arguments of the `HandWritingSynthRNN(...)` call in `train`. -/
def trainSynthCallKwargs : List String :=
  ["n_char", "n_gaussians_window", "kappa_factor", "memory_cells",
   "n_gaussians", "num_layers"]

/-- Python keyword binding: fails on the first supplied keyword that is not
among the callee's parameter names. -/
def kwargsBind (params supplied : List String) : Except String Unit :=
  match supplied.find? (fun k => !(params.contains k)) with
  | some k => Except.error ("TypeError: unexpected keyword argument " ++ k)
  | none => Except.ok ()

/-- The model-construction step of `train` (`train.py` lines 222–231): the
unconditional branch builds `HandWritingRNN` from `common_model_structure`
only (all its keywords are parameters), the conditional branch binds the
`HandWritingSynthRNN(...)` keywords. This runs before any training step. -/
def trainBuildModel (uncond : Bool) : Except String Unit :=
  if uncond then kwargsBind ["memory_cells", "n_gaussians", "num_layers"]
    ["memory_cells", "n_gaussians", "num_layers"]
  else kwargsBind synthInitParamNames trainSynthCallKwargs

/-- C10: `train` passes the keyword `kappa_factor`, which is not among the
constructor's parameters, so the conditional (non `--uncond`) training run
raises `TypeError` at model construction — before any training step — while
the unconditional branch constructs fine. -/
theorem conditional_train_build_fails :
    (trainSynthCallKwargs.contains "kappa_factor" = true)
    ∧ (synthInitParamNames.contains "kappa_factor" = false)
    ∧ (trainBuildModel false
        = Except.error "TypeError: unexpected keyword argument kappa_factor")
    ∧ (trainBuildModel true = Except.ok ()) :=
  ⟨rfl, rfl, rfl, rfl⟩

/-! ## Claim C8: permutation invariance of `mog_density_2d` -/

/-- C8: for every input `x` and every permutation `p` of the `m` mixture
components, applying `p` consistently to the mixture-weight, mean, std-dev
and correlation arguments of `mog_density_2d` leaves its returned
log-density unchanged. -/
theorem mog_density_2d_perm_invariant {g : ℕ} (x : Vec 2) (log_pi : Fin g → ℝ)
    (mu : Fin g → Vec 2) (sigma : Fin g → Vec 2) (rho : Fin g → ℝ)
    (p : Equiv.Perm (Fin g)) :
    mog_density_2d x (log_pi ∘ p) (mu ∘ p) (sigma ∘ p) (rho ∘ p)
      = mog_density_2d x log_pi mu sigma rho := by
  unfold mog_density_2d
  congr 1
  have h : ∀ k, mogTerm x (log_pi ∘ p) (mu ∘ p) (sigma ∘ p) (rho ∘ p) k
      = mogTerm x log_pi mu sigma rho (p k) := fun k => rfl
  simp only [h]
  exact Equiv.sum_comp p (fun k => Real.exp (mogTerm x log_pi mu sigma rho k))

/-! ## Claim C5: masked steps contribute exactly zero -/

/-- C5: two calls to `criterion` whose inputs agree at every step with mask 1
(and may differ arbitrarily at steps with mask 0, the masks being 0/1-valued
and shared) return the same loss: a step with mask 0 contributes exactly 0. -/
theorem criterion_mask_invariant {ι : Type*} [Fintype ι] {g : ℕ}
    (x₁ x₂ : ι → Vec 3) (e₁ e₂ : ι → ℝ) (lp₁ lp₂ : ι → Fin g → ℝ)
    (mu₁ mu₂ : ι → Fin g → Vec 2) (s₁ s₂ : ι → Fin g → Vec 2)
    (r₁ r₂ : ι → Fin g → ℝ) (masks : ι → ℝ)
    (hb : ∀ i, masks i = 0 ∨ masks i = 1)
    (ha : ∀ i, masks i = 1 →
      x₁ i = x₂ i ∧ e₁ i = e₂ i ∧ lp₁ i = lp₂ i ∧ mu₁ i = mu₂ i
        ∧ s₁ i = s₂ i ∧ r₁ i = r₂ i) :
    criterion x₁ e₁ lp₁ mu₁ s₁ r₁ masks = criterion x₂ e₂ lp₂ mu₂ s₂ r₂ masks := by
  unfold criterion
  congr 1
  congr 1
  apply Finset.sum_congr rfl
  intro i _
  rcases hb i with h0 | h1
  · rw [h0, mul_zero, mul_zero]
  · obtain ⟨hx, he, hlp, hmu, hs, hr⟩ := ha i h1
    rw [h1, mul_one, mul_one]
    unfold stepLogDensity e_eps e_obs
    rw [hx, he, hlp, hmu, hs, hr]

/-- Witness for C5: a concrete pair of input bundles over two steps that agree
at the mask-1 step and differ wildly at the mask-0 step, with equal losses. -/
theorem criterion_mask_invariant_witness :
    criterion (g := 1) (ι := Fin 2)
        (fun i => if i = 0 then (fun _ => 1) else (fun _ => 5))
        (fun i => if i = 0 then (1/2 : ℝ) else 9)
        (fun _ _ => 0) (fun _ _ _ => 0) (fun _ _ _ => 1) (fun _ _ => 0)
        (fun i => if i = 0 then (1 : ℝ) else 0)
      = criterion (g := 1) (ι := Fin 2)
        (fun i => if i = 0 then (fun _ => 1) else (fun _ => -37))
        (fun i => if i = 0 then (1/2 : ℝ) else -4)
        (fun _ _ => 0) (fun _ _ _ => 0) (fun _ _ _ => 1) (fun _ _ => 0)
        (fun i => if i = 0 then (1 : ℝ) else 0) := by
  exact criterion_mask_invariant _ _ _ _ _ _ _ _ _ _ _ _ _
    (fun i => if h : i = 0 then Or.inr (by simp [h]) else Or.inl (by simp [h]))
    (fun i hi => by
      by_cases h : i = 0
      · subst h; exact ⟨rfl, rfl, rfl, rfl, rfl, rfl⟩
      · simp [h] at hi)

end

end HandwritingSynthesis
